import Mathlib

/-!
Shallow embedding of the `igotstandard` repository's caching core:

* `src/server.js` — the on-demand service's `CacheManager` (criteria
  normalization, cache-key fingerprinting, cache get/set/updateAccess,
  file persistence) and the `getResults` request path.
* `src/cache-system.js` — the offline harvester `DataCachingSystem`
  (parameter grids, combination enumeration and ids, bounded-retry
  scraping, the resumable batch driver with progress checkpoints and
  the error log).

JavaScript dynamic values are embedded as `JSVal`; JS numbers are exact
rationals with `Option` tracking `NaN` (floating-point rounding and
exponent notation are outside the modelled fragment, which covers the
plain decimal literals these code paths handle).  File I/O is modelled
by threading explicit state; operations whose JS counterparts can throw
are embedded in `Except`.
-/

namespace IGS

/-! ### JavaScript value model -/

/-- A JavaScript value as it flows through the criteria-handling code.
`num none` models `NaN`; other numbers are exact rationals. -/
inductive JSVal : Type where
  | undef : JSVal
  | null : JSVal
  | bool (b : Bool) : JSVal
  | num (n : Option ℚ) : JSVal
  | str (s : String) : JSVal
deriving DecidableEq, Repr

/-- JavaScript truthiness: `undefined`, `null`, `false`, `0`, `NaN` and
the empty string are falsy. -/
def truthy : JSVal → Bool
  | .undef => false
  | .null => false
  | .bool b => b
  | .num none => false
  | .num (some q) => q != 0
  | .str s => s != ""

/-- The JS `a || b` operator on values. -/
def jsOr (a b : JSVal) : JSVal := if truthy a then a else b

/-- Value of a list of decimal digit characters. -/
def digitsToNat (cs : List Char) : Nat :=
  cs.foldl (fun acc c => acc * 10 + (c.toNat - 48)) 0

/-- Split an optional leading sign off a character list. -/
def splitSign : List Char → Int × List Char
  | '-' :: rest => (-1, rest)
  | '+' :: rest => (1, rest)
  | cs => (1, cs)

/-- JS `parseInt` on a string (decimal fragment: optional blanks and
sign, then leading digits; anything after the digits is ignored).
`none` models `NaN`. -/
def parseIntChars (cs : List Char) : Option Int :=
  let cs1 := cs.dropWhile (fun c => c = ' ')
  let sg := splitSign cs1
  let ds := sg.2.takeWhile Char.isDigit
  if ds.isEmpty then none else some (sg.1 * (digitsToNat ds : Int))

/-- JS `parseFloat` on a string (decimal fragment: optional blanks and
sign, integer digits, optional fraction; trailing junk ignored).
`none` models `NaN`. -/
def parseFloatChars (cs : List Char) : Option ℚ :=
  let cs1 := cs.dropWhile (fun c => c = ' ')
  let sg := splitSign cs1
  let ds := sg.2.takeWhile Char.isDigit
  let rest := sg.2.drop ds.length
  let fs := match rest with
    | '.' :: r => r.takeWhile Char.isDigit
    | _ => []
  if ds.isEmpty && fs.isEmpty then none
  else some ((sg.1 : ℚ) * ((digitsToNat ds : ℚ) + (digitsToNat fs : ℚ) / (10 ^ fs.length : ℚ)))

/-- Truncation toward zero, the integer JS `parseInt` extracts from a
plain decimal number. -/
def ratTrunc (q : ℚ) : Int := if q < 0 then -((-q).floor) else q.floor

/-- Smallest exponent `k ≤ 63` with `d ∣ 10 ^ k`, used to render a
rational as the exact finite decimal JS prints. -/
def pow10Exp (d : Nat) : Option Nat :=
  (List.range 64).find? (fun k => 10 ^ k % d == 0)

/-- Decimal digits of `n`, left-padded with zeros to width `k`. -/
def fracDigitsPad (n k : Nat) : String :=
  let s := Nat.repr n
  String.mk (List.replicate (k - s.length) '0') ++ s

/-- Renders a nonnegative rational the way JS `Number.prototype.toString`
prints a plain finite decimal. -/
def ratToStringNN (q : ℚ) : String :=
  match pow10Exp q.den with
  | some 0 => Nat.repr q.num.toNat
  | some (k + 1) =>
    let scaled := q.num.toNat * (10 ^ (k + 1) / q.den)
    Nat.repr (scaled / 10 ^ (k + 1)) ++ "." ++ fracDigitsPad (scaled % 10 ^ (k + 1)) (k + 1)
  | none => Nat.repr q.num.toNat ++ "/" ++ Nat.repr q.den

/-- Renders a rational as JS number-to-string. -/
def ratToString (q : ℚ) : String :=
  if q < 0 then "-" ++ ratToStringNN (-q) else ratToStringNN q

/-- The JS optional-chained `v?.toString()`: `none` when `v` is
`undefined` or `null`. -/
def jsToString : JSVal → Option String
  | .undef => none
  | .null => none
  | .bool b => some (if b then "true" else "false")
  | .num none => some "NaN"
  | .num (some q) => some (ratToString q)
  | .str s => some s

/-- JS `parseInt` over a value (string conversion then decimal parse). -/
def parseIntJS : JSVal → Option Int
  | .undef => none
  | .null => none
  | .bool _ => none
  | .num none => none
  | .num (some q) => some (ratTrunc q)
  | .str s => parseIntChars s.data

/-- JS `parseFloat` over a value. -/
def parseFloatJS : JSVal → Option ℚ
  | .undef => none
  | .null => none
  | .bool _ => none
  | .num none => none
  | .num (some q) => some q
  | .str s => parseFloatChars s.data

/-- The JS pattern `parseInt(x) || d`: `NaN` and `0` both fall back. -/
def intOr (o : Option Int) (d : Int) : Int :=
  match o with
  | none => d
  | some n => if n = 0 then d else n

/-! ### server.js — CacheManager normalization and fingerprint -/

/-- Raw request criteria: the fields `CacheManager` reads from the
untrusted input object, each an arbitrary JS value. -/
structure RawCriteria where
  minAge : JSVal := .undef
  maxAge : JSVal := .undef
  excludeMarried : JSVal := .undef
  race : JSVal := .undef
  height : JSVal := .undef
  minHeight : JSVal := .undef
  excludeObese : JSVal := .undef
  income : JSVal := .undef
  minIncome : JSVal := .undef
deriving DecidableEq, Repr

/-- The function-valued properties every plain object literal inherits
from `Object.prototype` in Node, visible to a bracket read such as
`raceMapping[key]`. -/
def objectPrototypeFnKeys : List String :=
  ["constructor", "hasOwnProperty", "isPrototypeOf", "propertyIsEnumerable",
   "toLocaleString", "toString", "valueOf",
   "__defineGetter__", "__defineSetter__", "__lookupGetter__", "__lookupSetter__"]

/-- What the property read `raceMapping[race?.toString()]` can produce:
one of the map's own numeric codes; a function inherited from
`Object.prototype` (for the eleven method names, carried by name to
keep distinct functions distinct); or, for the key `__proto__`, the
prototype object itself. -/
inductive RaceVal where
  | code (n : Nat)
  | protoFn (name : String)
  | protoObject
deriving DecidableEq, Repr

/-- The canonical criteria record built by
`CacheManager.getNormalizedCriteria`.  `minIncome` is `Option Int`
because the source applies `parseInt` with no fallback there, so `NaN`
(modelled `none`) can land in the record; `race` is a `RaceVal` because
the untyped lookup in `normalizeRace` can surface an inherited
`Object.prototype` property rather than a numeric code. -/
structure NormalizedCriteria where
  minAge : Int
  maxAge : Int
  excludeMarried : Bool
  race : RaceVal
  minHeight : ℚ
  excludeObese : Bool
  minIncome : Option Int
deriving DecidableEq, Repr

/-- The literal `raceMapping` object of `CacheManager.normalizeRace`
(its own keys). -/
def raceMapping : List (String × Nat) :=
  [("any", 0), ("0", 0), ("white", 1), ("1", 1),
   ("black", 2), ("2", 2), ("asian", 3), ("3", 3)]

/-- Embeds `CacheManager.normalizeRace`: the JS property read
`raceMapping[race?.toString()]` first hits the object's own keys, then
the properties inherited from `Object.prototype` — both are
`!== undefined`, so only a key found in neither falls back to `0`. -/
def normalizeRace (race : JSVal) : RaceVal :=
  match jsToString race with
  | none => .code 0
  | some s =>
    match raceMapping.lookup s with
    | some n => .code n
    | none =>
      if s ∈ objectPrototypeFnKeys then .protoFn s
      else if s = "__proto__" then .protoObject
      else .code 0

/-- Embeds `CacheManager.normalizeHeight`: falsy, the string `"any"` or
the number `0` give `0`; otherwise `parseFloat(height) || 0`. -/
def normalizeHeight (h : JSVal) : ℚ :=
  if !(truthy h) || h = .str "any" || h = .num (some 0) then 0
  else
    match parseFloatJS h with
    | none => 0
    | some q => if q = 0 then 0 else q

/-- Embeds `CacheManager.getNormalizedCriteria`.  Note the source reads
`criteria.height || criteria.minHeight` and
`parseInt(criteria.income || criteria.minIncome || 0)` — the latter has
no `|| default` after the parse. -/
def getNormalizedCriteria (c : RawCriteria) : NormalizedCriteria where
  minAge := intOr (parseIntJS c.minAge) 25
  maxAge := intOr (parseIntJS c.maxAge) 35
  excludeMarried := truthy c.excludeMarried
  race := normalizeRace c.race
  minHeight := normalizeHeight (jsOr c.height c.minHeight)
  excludeObese := truthy c.excludeObese
  minIncome := parseIntJS (jsOr c.income (jsOr c.minIncome (.num (some 0))))

/-- JS boolean to string. -/
def boolToString (b : Bool) : String := if b then "true" else "false"

/-- JSON rendering of an integer. -/
def intToString (n : Int) : String :=
  if n < 0 then "-" ++ Nat.repr (-n).toNat else Nat.repr n.toNat

/-- JSON rendering of `minIncome`: `JSON.stringify` prints `NaN` as
`null`. -/
def jsonNumOrNull : Option Int → String
  | none => "null"
  | some n => intToString n

/-- The `"race"` fragment of the serialized record: `JSON.stringify`
prints a numeric code as a number, omits a function-valued property
entirely, and prints `Object.prototype` (no enumerable own properties)
as `\x7b\x7d`. -/
def jsonRaceFragment : RaceVal → String
  | .code n => ",\"race\":" ++ Nat.repr n
  | .protoFn _ => ""
  | .protoObject => ",\"race\":\x7b\x7d"

/-- The string `JSON.stringify(sortedNormalized)` produces inside
`CacheManager.generateKey`: the seven fields in sorted key order. -/
def jsonOfNormalized (n : NormalizedCriteria) : String :=
  "\x7b\"excludeMarried\":" ++ boolToString n.excludeMarried ++
  ",\"excludeObese\":" ++ boolToString n.excludeObese ++
  ",\"maxAge\":" ++ intToString n.maxAge ++
  ",\"minAge\":" ++ intToString n.minAge ++
  ",\"minHeight\":" ++ ratToString n.minHeight ++
  ",\"minIncome\":" ++ jsonNumOrNull n.minIncome ++
  jsonRaceFragment n.race ++ "\x7d"

/-- Modelled from the spec: the `crypto.createHash('md5')` digest is a
Node library call, not repository code; it is modelled by an arbitrary
deterministic digest of the serialized string ("a deterministic,
collision-resistant digest" per the spec — only determinism is relied
on by any theorem below). -/
def md5Model (s : String) : Nat :=
  s.data.foldl (fun h c => (h * 131 + c.toNat) % (2 ^ 128)) 7

/-- One hexadecimal digit character. -/
def hexChar (n : Nat) : Char :=
  if n < 10 then Char.ofNat (48 + n) else Char.ofNat (87 + n)

/-- Big-endian fixed-width hexadecimal digit list. -/
def natToHexAux : Nat → Nat → List Char
  | 0, _ => []
  | k + 1, n => natToHexAux k (n / 16) ++ [ hexChar (n % 16)]

/-- Fixed-length (32 hex digits) rendering, the shape of an md5 hex
digest. -/
def natToHex32 (n : Nat) : String := String.mk (natToHexAux 32 n)

/-- Embeds `CacheManager.generateKey`: normalize, serialize the fields
in sorted key order, digest. -/
def generateKey (c : RawCriteria) : String :=
  natToHex32 (md5Model (jsonOfNormalized (getNormalizedCriteria c)))

/-! ### server.js — CacheManager state and the getResults request path -/

/-- One cache entry as `CacheManager.set` builds it (timestamps are
abstract ticks). -/
structure CacheEntry (α : Type) where
  criteria : NormalizedCriteria
  data : α
  timestamp : Nat
  accessCount : Nat
  lastAccessed : Option Nat := none
deriving DecidableEq, Repr

/-- The in-memory `Map` of `CacheManager`, as an association list keyed
by fingerprint. -/
abbrev CacheMap (α : Type) := List (String × CacheEntry α)

/-- JS `Map.prototype.set`: replace the binding if the key is present,
append it otherwise. -/
def mapSet {β : Type} (k : String) (v : β) : List (String × β) → List (String × β)
  | [] => [(k, v)]
  | (k', v') :: rest => if k' = k then (k, v) :: rest else (k', v') :: mapSet k v rest

/-- The response envelope `getResults` returns: on a hit the spread of
the cached payload plus bookkeeping fields, on a miss the fresh payload
with `fromCache := false` and no `cachedAt`/`accessCount` fields
(modelled `none`). -/
structure Envelope (α : Type) where
  data : α
  fromCache : Bool
  cacheKey : String
  cachedAt : Option Nat := none
  accessCount : Option Nat := none
deriving DecidableEq, Repr

/-- Embeds `CacheManager.get`: pure lookup by generated key; a hit is
wrapped in the envelope with the entry's stored `accessCount`. -/
def cacheGet {α : Type} (m : CacheMap α) (criteria : RawCriteria) : Option (Envelope α) :=
  let key := generateKey criteria
  match m.lookup key with
  | some e => some { data := e.data, fromCache := true, cacheKey := key,
                     cachedAt := some e.timestamp, accessCount := some e.accessCount }
  | none => none

/-- Embeds `CacheManager.set` (in-memory part): store a fresh entry
with `accessCount = 1` under the generated key and return the key.  The
`saveToFile` call it also makes is modelled separately below. -/
def cacheSet {α : Type} (now : Nat) (m : CacheMap α) (criteria : RawCriteria) (data : α) :
    String × CacheMap α :=
  let key := generateKey criteria
  (key, mapSet key { criteria := getNormalizedCriteria criteria, data := data,
                     timestamp := now, accessCount := 1 } m)

/-- Embeds `CacheManager.updateAccess`: bump `accessCount` (the source
reads `(cached.accessCount || 1) + 1`) and stamp `lastAccessed` on an
existing entry; no-op when the key is absent. -/
def updateAccess {α : Type} (now : Nat) (m : CacheMap α) (criteria : RawCriteria) : CacheMap α :=
  let key := generateKey criteria
  match m.lookup key with
  | some e => mapSet key { e with
      accessCount := (if e.accessCount = 0 then 1 else e.accessCount) + 1,
      lastAccessed := some now } m
  | none => m

/-- Embeds the `getResults` flow of server.js: cache hit returns the
envelope built by `get` and then calls `updateAccess`; a miss scrapes
(the extractor is an external collaborator, passed as an oracle),
stores via `set`, and returns a non-cached envelope. -/
def getResults {α : Type} (scrape : RawCriteria → α) (now : Nat) (m : CacheMap α)
    (criteria : RawCriteria) : Envelope α × CacheMap α :=
  match cacheGet m criteria with
  | some env => (env, updateAccess now m criteria)
  | none =>
    let results := scrape criteria
    let km := cacheSet now m criteria results
    ({ data := results, fromCache := false, cacheKey := km.1 }, km.2)

/-! ### Persistence-failure model (server.js saveToFile, cache-system.js
saveProgress / logError) -/

/-- A raw `fs.writeFileSync` / `fs.writeFile` call: throws on an I/O
failure (the failure condition is threaded as a boolean). -/
def fsWrite (writeOk : Bool) : Except String Unit :=
  if writeOk then .ok () else .error "EIO: write failed"

/-- Embeds `CacheManager.saveToFile`: the write sits in a
`try { ... } catch` whose handler only logs, so the function never
throws; the returned flag records whether an error was logged. -/
def saveToFile (writeOk : Bool) : Except String Bool :=
  match fsWrite writeOk with
  | .ok _ => .ok false
  | .error _ => .ok true

/-- Embeds `CacheManager.set` including its `saveToFile` call, in
`Except` so that a thrown persistence error would surface here. -/
def cacheSetChecked {α : Type} (writeOk : Bool) (now : Nat) (m : CacheMap α)
    (criteria : RawCriteria) (data : α) : Except String (String × CacheMap α) := do
  let km := cacheSet now m criteria data
  let _ ← saveToFile writeOk
  pure km

/-- Embeds `DataCachingSystem.saveProgress`: a bare
`fs.writeFile` with no `try`/`catch`, so a write failure propagates to
the caller. -/
def saveProgressFS (writeOk : Bool) : Except String Unit :=
  fsWrite writeOk

/-! ### cache-system.js — DataCachingSystem -/

/-- The `parameterRanges.minAge` grid. -/
def minAgeRange : List Nat := [18, 20, 22, 25, 28, 30, 32, 35, 38, 40, 45, 50]

/-- The `parameterRanges.maxAge` grid. -/
def maxAgeRange : List Nat := [22, 25, 28, 30, 32, 35, 38, 40, 45, 50, 55, 60, 65]

/-- The `parameterRanges.excludeMarried` grid. -/
def excludeMarriedRange : List Bool := [true, false]

/-- The `parameterRanges.race` grid. -/
def raceRange : List Nat := [0, 1, 2, 3]

/-- The `parameterRanges.minHeight` grid. -/
def minHeightRange : List Nat := [0, 150, 155, 160, 165, 170, 175, 180, 185, 190]

/-- The `parameterRanges.excludeObese` grid. -/
def excludeObeseRange : List Bool := [true, false]

/-- The `parameterRanges.minIncome` grid. -/
def minIncomeRange : List Nat := [0, 30000, 50000, 75000, 100000, 150000, 200000, 300000, 500000]

/-- `this.batchSize = 10`. -/
def batchSize : Nat := 10

/-- `this.retryAttempts = 3`. -/
def retryAttempts : Nat := 3

/-- One parameter tuple of the harvester, fields in source order. -/
structure CombParams where
  minAge : Nat
  maxAge : Nat
  excludeMarried : Bool
  race : Nat
  minHeight : Nat
  excludeObese : Bool
  minIncome : Nat
deriving DecidableEq, Repr

/-- Embeds `generateCombinationId`: the seven ordered values joined
with `-` (JS template-literal rendering of numbers and booleans). -/
def generateCombinationId (p : CombParams) : String :=
  Nat.repr p.minAge ++ "-" ++ Nat.repr p.maxAge ++ "-" ++
  boolToString p.excludeMarried ++ "-" ++ Nat.repr p.race ++ "-" ++
  Nat.repr p.minHeight ++ "-" ++ boolToString p.excludeObese ++ "-" ++
  Nat.repr p.minIncome

/-- One enumerated combination: derived id plus its parameters. -/
structure Combination where
  id : String
  params : CombParams
deriving DecidableEq, Repr

/-- The object pushed for one tuple inside `generateAllCombinations`. -/
def mkCombination (p : CombParams) : Combination :=
  { id := generateCombinationId p, params := p }

/-- Innermost loop of `generateAllCombinations` (over `minIncome`). -/
def innerIncome (a b : Nat) (m : Bool) (r h : Nat) (o : Bool) : List Combination :=
  minIncomeRange.map (fun inc => mkCombination ⟨a, b, m, r, h, o, inc⟩)

/-- Loop over `excludeObese`. -/
def innerObese (a b : Nat) (m : Bool) (r h : Nat) : List Combination :=
  excludeObeseRange.flatMap (fun o => innerIncome a b m r h o)

/-- Loop over `minHeight`. -/
def innerHeight (a b : Nat) (m : Bool) (r : Nat) : List Combination :=
  minHeightRange.flatMap (fun h => innerObese a b m r h)

/-- Loop over `race`. -/
def innerRace (a b : Nat) (m : Bool) : List Combination :=
  raceRange.flatMap (fun r => innerHeight a b m r)

/-- Loop over `excludeMarried`. -/
def innerMarried (a b : Nat) : List Combination :=
  excludeMarriedRange.flatMap (fun m => innerRace a b m)

/-- Embeds `DataCachingSystem.generateAllCombinations`: seven nested
loops in source order, with the `if (minAgeVal >= maxAgeVal) continue`
guard inside the `maxAge` loop. -/
def generateAllCombinations : List Combination :=
  minAgeRange.flatMap (fun a =>
    maxAgeRange.flatMap (fun b =>
      if a ≥ b then [] else innerMarried a b))

/-- One appended entry of the error log (`logError`). -/
structure ErrorRecord where
  timestamp : Nat
  combination : Combination
  message : String
deriving DecidableEq, Repr

/-- The progress checkpoint written by `saveProgress` (the derived
percentage string and ISO timestamps are represented by abstract
ticks). -/
structure Progress where
  totalCombinations : Nat
  processed : Nat
  currentIndex : Nat
  startTime : Option Nat
  lastProcessedAt : Option Nat
  errors : Nat
  successes : Nat
deriving DecidableEq, Repr

/-- Observable actions of the batch driver, recorded as a trace:
individual extractor attempts, results-file saves, progress-checkpoint
saves and already-cached skips. -/
inductive Ev where
  | fetchAttempt (id : String) (attempt : Nat)
  | savedResults
  | savedProgress (p : Progress)
  | skip (id : String)
deriving DecidableEq, Repr

/-- Embeds `scrapeWithRetry`: one extractor attempt (the
browser/extraction mechanics are the external collaborator, passed as
an attempt-indexed oracle); on failure retry after a delay while
`attempt < this.retryAttempts`, else append one error record via
`logError` and rethrow.  Returns the outcome, the trace of attempts
made, and the error records appended. -/
def scrapeWithRetry {α : Type} (extract : Nat → Except String α) (combo : Combination)
    (now : Nat) (attempt : Nat) : Except String α × List Ev × List ErrorRecord :=
  match extract attempt with
  | .ok v => (.ok v, [Ev.fetchAttempt combo.id attempt], [])
  | .error e =>
    if _h : attempt < retryAttempts then
      let r := scrapeWithRetry extract combo now (attempt + 1)
      (r.1, Ev.fetchAttempt combo.id attempt :: r.2.1, r.2.2)
    else
      (.error e, [Ev.fetchAttempt combo.id attempt],
       [{ timestamp := now, combination := combo, message := e }])
termination_by retryAttempts + 1 - attempt
decreasing_by simp_wf; omega

/-- In-memory run state of `startCaching`: the loaded results map, the
error log and the counters. -/
structure RunState (α : Type) where
  results : List (String × α)
  errorLog : List ErrorRecord
  processed : Nat
  successes : Nat
  errors : Nat
  startTime : Option Nat
deriving DecidableEq, Repr

/-- Embeds the body of the per-combination loop of `startCaching`: skip
with `processedCount++; successCount++; continue` when
`existingResults[combination.id]` is set (no checkpoint write on that
path); otherwise fetch with retry, on success store the result and save
the results file, on permanent failure bump `errorCount`; then
`processedCount++` and persist a checkpoint whose `currentIndex` is
`i + batch.indexOf(combination) + 1`. -/
def processItem {α : Type} (extract : String → Nat → Except String α) (now total : Nat)
    (batchStart : Nat) (fullBatch : List Combination) (c : Combination) (st : RunState α) :
    RunState α × List Ev :=
  if (st.results.lookup c.id).isSome then
    ({ st with processed := st.processed + 1, successes := st.successes + 1 }, [Ev.skip c.id])
  else
    let fr := scrapeWithRetry (extract c.id) c now 1
    let step :=
      match fr.1 with
      | .ok v =>
        ({ st with results := mapSet c.id v st.results,
                   errorLog := st.errorLog ++ fr.2.2,
                   successes := st.successes + 1 }, fr.2.1 ++ [Ev.savedResults])
      | .error _ =>
        ({ st with errorLog := st.errorLog ++ fr.2.2,
                   errors := st.errors + 1 }, fr.2.1)
    let st2 := { step.1 with processed := step.1.processed + 1 }
    let prog : Progress :=
      { totalCombinations := total
        processed := st2.processed
        currentIndex := batchStart + fullBatch.indexOf c + 1
        startTime := st.startTime
        lastProcessedAt := some now
        errors := st2.errors
        successes := st2.successes }
    (st2, step.2 ++ [Ev.savedProgress prog])

/-- The `for (const combination of batch)` loop over one batch slice. -/
def processBatch {α : Type} (extract : String → Nat → Except String α) (now total : Nat)
    (batchStart : Nat) (fullBatch : List Combination) :
    List Combination → RunState α → RunState α × List Ev
  | [], st => (st, [])
  | c :: rest, st =>
    let r1 := processItem extract now total batchStart fullBatch c st
    let r2 := processBatch extract now total batchStart fullBatch rest r1.1
    (r2.1, r1.2 ++ r2.2)

/-- Embeds the outer batch loop of `startCaching`:
`for (let i = startIndex; i < combinations.length; i += this.batchSize)`
with `batch = combinations.slice(i, min(i + batchSize, length))`. -/
def runBatches {α : Type} (extract : String → Nat → Except String α) (now : Nat)
    (combos : List Combination) (st : RunState α) (i : Nat) : RunState α × List Ev :=
  if _h : i < combos.length then
    let batch := (combos.drop i).take batchSize
    let r1 := processBatch extract now combos.length i batch batch st
    let r2 := runBatches extract now combos r1.1 (i + batchSize)
    (r2.1, r1.2 ++ r2.2)
  else (st, [])
termination_by combos.length - i
decreasing_by simp_wf; simp [batchSize]; omega

/-- Embeds `startCaching` (minus process-global I/O): generate the full
space, resume at the loaded checkpoint's `currentIndex` with its
counters, stamping `startTime` only when starting from index `0`. -/
def startCaching {α : Type} (extract : String → Nat → Except String α) (now : Nat)
    (progress : Progress) (results0 : List (String × α)) (errors0 : List ErrorRecord) :
    RunState α × List Ev :=
  let combos := generateAllCombinations
  let st0 : RunState α :=
    { results := results0
      errorLog := errors0
      processed := progress.processed
      successes := progress.successes
      errors := progress.errors
      startTime := if progress.currentIndex = 0 then some now else progress.startTime }
  runBatches extract now combos st0 progress.currentIndex

/-! ### Helper lemmas -/

/-- Lookup after a fresh `mapSet` of the same key. -/
theorem lookup_mapSet_self {β : Type} (k : String) (v : β) :
    ∀ m : List (String × β), (mapSet k v m).lookup k = some v := by
  intro m
  induction m with
  | nil => simp [mapSet, List.lookup]
  | cons hd tl ih =>
    by_cases hk : hd.1 = k
    · simp [mapSet, hk, List.lookup]
    · simp only [mapSet]
      rw [if_neg hk]
      simp only [List.lookup]
      have : (k == hd.1) = false := by
        simp [beq_iff_eq]
        exact fun he => hk he.symm
      rw [this]
      exact ih

/-- A key absent from an association list's key set looks up to
nothing. -/
theorem lookup_eq_none_of_not_mem_keys {β : Type} (k : String) :
    ∀ m : List (String × β), k ∉ m.map Prod.fst → m.lookup k = none := by
  intro m
  induction m with
  | nil => intro _; rfl
  | cons hd tl ih =>
    intro hk
    simp only [List.map_cons, List.mem_cons, not_or] at hk
    simp only [List.lookup]
    have : (k == hd.1) = false := by simp [beq_iff_eq]; exact hk.1
    rw [this]
    exact ih hk.2

end IGS

namespace IGS

/-! ### Claim C1 -/

/-- C1: any two raw criteria that normalize to the same
`NormalizedCriteria` are assigned the same cache key by
`CacheManager.generateKey`, regardless of surface representation. -/
theorem generateKey_eq_of_normalize_eq (a b : RawCriteria)
    (h : getNormalizedCriteria a = getNormalizedCriteria b) :
    generateKey a = generateKey b := by
  unfold generateKey
  rw [h]

/-- Witness for C1 at the claim's own example inputs: race given as the
name `"white"` versus the numeric code `1`, and `minHeight` given as
`"any"` versus `0`, normalize identically and fingerprint identically. -/
theorem generateKey_eq_of_normalize_eq_witness :
    (getNormalizedCriteria { race := .str "white" } =
       getNormalizedCriteria { race := .num (some 1) } ∧
     generateKey { race := .str "white" } = generateKey { race := .num (some 1) }) ∧
    (getNormalizedCriteria { height := .str "any" } =
       getNormalizedCriteria { minHeight := .num (some 0) } ∧
     generateKey { height := .str "any" } = generateKey { minHeight := .num (some 0) }) :=
  ⟨⟨by decide, generateKey_eq_of_normalize_eq _ _ (by decide)⟩,
   ⟨by decide, generateKey_eq_of_normalize_eq _ _ (by decide)⟩⟩

/-! ### Claim C2 -/

/-- C2 counterexample: the source's `raceMapping[race?.toString()]`
lookup has no case folding, so the raw race `"BLACK"` is unmatched
(as an own key and as an inherited one) and maps to `0`, not to `2` as
the claim states. -/
theorem normalizeRace_BLACK_cex :
    normalizeRace (.str "BLACK") = .code 0 ∧ normalizeRace (.str "BLACK") ≠ .code 2 := by
  decide

/-- C2 amended: race normalization matches the lowercase names
`any/white/black/asian` and the numeric codes 0–3 (as numbers or digit
strings) case-sensitively; every other value maps to 0 — including the
uppercase `"BLACK"` — except strings naming inherited
`Object.prototype` properties (`toString`, `constructor`, `valueOf`,
`hasOwnProperty`, …, `__proto__`), for which the untyped lookup
returns the inherited property (a function, or the prototype object
for `__proto__`) instead of a race code. -/
theorem normalizeRace_spec :
    normalizeRace (.str "any") = .code 0 ∧ normalizeRace (.str "white") = .code 1 ∧
    normalizeRace (.str "black") = .code 2 ∧ normalizeRace (.str "asian") = .code 3 ∧
    normalizeRace (.num (some 0)) = .code 0 ∧ normalizeRace (.num (some 1)) = .code 1 ∧
    normalizeRace (.num (some 2)) = .code 2 ∧ normalizeRace (.num (some 3)) = .code 3 ∧
    normalizeRace (.str "BLACK") = .code 0 ∧ normalizeRace .undef = .code 0 ∧
    normalizeRace (.str "toString") = .protoFn "toString" ∧
    normalizeRace (.str "constructor") = .protoFn "constructor" ∧
    normalizeRace (.str "__proto__") = .protoObject ∧
    ∀ s : String, s ∉ ["any", "0", "white", "1", "black", "2", "asian", "3"] →
      s ∉ objectPrototypeFnKeys → s ≠ "__proto__" →
      normalizeRace (.str s) = .code 0 := by
  refine ⟨by decide, by decide, by decide, by decide, by decide, by decide,
          by decide, by decide, by decide, by decide, by decide, by decide,
          by decide, ?_⟩
  intro s hs hp hq
  have hkeys : s ∉ raceMapping.map Prod.fst := by
    simpa [raceMapping] using hs
  simp [normalizeRace, jsToString, lookup_eq_none_of_not_mem_keys s raceMapping hkeys, hp, hq]

/-- Witness for C2's amended universal clause at the concrete string
`"BLACK"`, which is neither an own key nor an inherited property. -/
theorem normalizeRace_spec_witness :
    (("BLACK" : String) ∉ ["any", "0", "white", "1", "black", "2", "asian", "3"] ∧
     ("BLACK" : String) ∉ objectPrototypeFnKeys ∧ ("BLACK" : String) ≠ "__proto__") ∧
    normalizeRace (.str "BLACK") = .code 0 :=
  ⟨⟨by decide, by decide, by decide⟩,
   normalizeRace_spec.2.2.2.2.2.2.2.2.2.2.2.2.2 "BLACK" (by decide) (by decide) (by decide)⟩

/-! ### Claim C7 -/

/-- C7 counterexample: the source computes
`parseInt(criteria.income || criteria.minIncome || 0)` with no fallback
after the parse, so a truthy non-numeric `income` makes the normalized
`minIncome` `NaN` (`none`), not the default `0` the claim requires. -/
theorem normalized_minIncome_nan_cex :
    (getNormalizedCriteria { income := .str "abc" }).minIncome = none ∧
    (getNormalizedCriteria { income := .str "abc" }).minIncome ≠ some 0 := by
  decide

/-- C7 amended: normalization is total and all seven fields are always
present (the record type is total by construction); `minAge`, `maxAge`
and `minHeight` fall back to their defaults (25, 35, 0) on any
non-numeric or missing input, but `minIncome` falls back to `0` only
when both `income` and `minIncome` are missing or falsy — a truthy
non-numeric value there yields `NaN` instead of the default. -/
theorem getNormalizedCriteria_defaults (raw : RawCriteria) :
    (parseIntJS raw.minAge = none → (getNormalizedCriteria raw).minAge = 25) ∧
    (parseIntJS raw.maxAge = none → (getNormalizedCriteria raw).maxAge = 35) ∧
    (parseFloatJS (jsOr raw.height raw.minHeight) = none →
      (getNormalizedCriteria raw).minHeight = 0) ∧
    (truthy raw.income = false → truthy raw.minIncome = false →
      (getNormalizedCriteria raw).minIncome = some 0) := by
  refine ⟨?_, ?_, ?_, ?_⟩
  · intro h; simp [getNormalizedCriteria, intOr, h]
  · intro h; simp [getNormalizedCriteria, intOr, h]
  · intro h
    simp only [getNormalizedCriteria, normalizeHeight, h]
    split <;> rfl
  · intro h1 h2
    simp [getNormalizedCriteria, jsOr, h1, h2, parseIntJS, ratTrunc]
    decide

/-- Witness for C7's amended fallbacks on the fully missing input: all
numeric fields take their defaults. -/
theorem getNormalizedCriteria_defaults_witness :
    parseIntJS (RawCriteria.minAge {}) = none ∧
    (getNormalizedCriteria {}).minAge = 25 ∧
    (getNormalizedCriteria {}).maxAge = 35 ∧
    (getNormalizedCriteria {}).minHeight = 0 ∧
    (getNormalizedCriteria {}).minIncome = some 0 :=
  ⟨by decide, (getNormalizedCriteria_defaults {}).1 (by decide),
   (getNormalizedCriteria_defaults {}).2.1 (by decide),
   (getNormalizedCriteria_defaults {}).2.2.1 (by decide),
   (getNormalizedCriteria_defaults {}).2.2.2 (by decide) (by decide)⟩

/-! ### Claim C8 -/

/-- A constant scrape oracle used for the concrete two-request runs. -/
def scrapeConst : RawCriteria → String := fun _ => "payload"

/-- The first on-demand request against an empty cache. -/
def firstCall : Envelope String × CacheMap String := getResults scrapeConst 1 [] {}

/-- The identical second request, against the state the first left. -/
def secondCall : Envelope String × CacheMap String := getResults scrapeConst 2 firstCall.2 {}

set_option maxRecDepth 8000 in
/-- C8 counterexample: the hit path builds the returned envelope from
the entry's `accessCount` before `updateAccess` increments it, so the
identical second request returns `accessCount = 1`, not `2` as the
claim states (the store is bumped to 2). -/
theorem second_request_access_count_cex :
    secondCall.1.fromCache = true ∧ secondCall.1.accessCount = some 1 ∧
    secondCall.1.accessCount ≠ some 2 := by
  decide

/-- C8 amended: for any criteria whose key is not yet cached, the first
request is a miss (`fromCache = false`) that creates an entry with
`accessCount = 1`; the identical second request returns an envelope
with `fromCache = true` carrying the pre-increment `accessCount = 1`,
while the stored entry's `accessCount` is incremented to `2`. -/
theorem getResults_miss_then_hit {α : Type} (scrape : RawCriteria → α) (t1 t2 : Nat)
    (m : CacheMap α) (criteria : RawCriteria)
    (hmiss : m.lookup (generateKey criteria) = none) :
    (getResults scrape t1 m criteria).1.fromCache = false ∧
    ((getResults scrape t1 m criteria).2.lookup (generateKey criteria)).map
        (fun e => e.accessCount) = some 1 ∧
    (getResults scrape t2 (getResults scrape t1 m criteria).2 criteria).1.fromCache = true ∧
    (getResults scrape t2 (getResults scrape t1 m criteria).2 criteria).1.accessCount = some 1 ∧
    ((getResults scrape t2 (getResults scrape t1 m criteria).2 criteria).2.lookup
        (generateKey criteria)).map (fun e => e.accessCount) = some 2 := by
  have h1 : getResults scrape t1 m criteria =
      ({ data := scrape criteria, fromCache := false, cacheKey := generateKey criteria },
       mapSet (generateKey criteria)
         { criteria := getNormalizedCriteria criteria, data := scrape criteria,
           timestamp := t1, accessCount := 1 } m) := by
    simp [getResults, cacheGet, cacheSet, hmiss]
  rw [h1]
  have hset := lookup_mapSet_self (generateKey criteria)
    { criteria := getNormalizedCriteria criteria, data := scrape criteria,
      timestamp := t1, accessCount := 1, lastAccessed := none } m
  simp only [getResults, cacheGet, updateAccess, hset, lookup_mapSet_self]
  exact ⟨trivial, rfl, trivial, trivial, rfl⟩

/-- Witness for C8's amended flow at concrete inputs: empty cache,
default criteria, constant scrape. -/
theorem getResults_miss_then_hit_witness :
    ([] : CacheMap String).lookup (generateKey {}) = none ∧
    ((getResults scrapeConst 1 [] {}).1.fromCache = false ∧
     ((getResults scrapeConst 1 [] {}).2.lookup (generateKey {})).map
         (fun e => e.accessCount) = some 1 ∧
     (getResults scrapeConst 2 (getResults scrapeConst 1 [] {}).2 {}).1.fromCache = true ∧
     (getResults scrapeConst 2 (getResults scrapeConst 1 [] {}).2 {}).1.accessCount = some 1 ∧
     ((getResults scrapeConst 2 (getResults scrapeConst 1 [] {}).2 {}).2.lookup
         (generateKey {})).map (fun e => e.accessCount) = some 2) :=
  ⟨rfl, getResults_miss_then_hit scrapeConst 1 2 [] {} rfl⟩

/-! ### Claim C9 -/

/-- Tests whether an `Except` computation succeeded. -/
def exceptOk {ε β : Type} : Except ε β → Bool
  | .ok _ => true
  | .error _ => false

/-- Embeds `DataCachingSystem.logError` including its outer
`try`/`catch`: on a write failure the error log file is left unchanged
and nothing is rethrown. -/
def logErrorFS (writeOk : Bool) (errors : List ErrorRecord) (r : ErrorRecord) :
    Except String (List ErrorRecord) :=
  match fsWrite writeOk with
  | .ok _ => .ok (errors ++ [r])
  | .error _ => .ok errors

/-- C9 counterexample: with a failing cache-file write, `put`
(`CacheManager.set`, whose `saveToFile` catches and only logs) still
returns successfully — the persistence error is not surfaced to the
caller of the operation that triggered the write, contradicting the
claim's own example. -/
theorem persistence_error_masked_cex :
    exceptOk (fsWrite false) = false ∧
    exceptOk (cacheSetChecked false 0 ([] : CacheMap String) {} "data") = true := by
  decide

/-- C9 amended: a progress-file write failure propagates to the caller
of `saveProgress` (no handler); but a cache-file write failure during
`put` is caught inside `saveToFile` and only logged — `set` still
returns the key and updated map — and an error-log write failure is
likewise swallowed, leaving the log unchanged. -/
theorem persistence_error_policy {α : Type} (now : Nat) (m : CacheMap α)
    (criteria : RawCriteria) (data : α) (errors : List ErrorRecord) (r : ErrorRecord) :
    saveProgressFS false = .error "EIO: write failed" ∧
    cacheSetChecked false now m criteria data = .ok (cacheSet now m criteria data) ∧
    logErrorFS false errors r = .ok errors ∧
    saveProgressFS true = .ok () ∧
    logErrorFS true errors r = .ok (errors ++ [r]) := by
  refine ⟨rfl, ?_, rfl, rfl, rfl⟩
  simp [cacheSetChecked, saveToFile, fsWrite]

/-! ### Claim C5 -/

/-- C5: against an extractor that fails on every attempt,
`scrapeWithRetry` makes exactly `retryAttempts = 3` extraction attempts
and no more, appends exactly one error record, and returns failure; the
driver's failure branch then leaves the results store untouched and
only bumps the error counter. -/
theorem scrapeWithRetry_retry_bound {α : Type} (extract : Nat → Except String α)
    (combo : Combination) (now : Nat)
    (hfail : ∀ n, ∃ e, extract n = Except.error e) :
    (scrapeWithRetry extract combo now 1).2.1.length = retryAttempts ∧
    (scrapeWithRetry extract combo now 1).2.2.length = 1 ∧
    (∃ e, (scrapeWithRetry extract combo now 1).1 = Except.error e) ∧
    ∀ (total batchStart : Nat) (fullBatch : List Combination) (st : RunState α),
      st.results.lookup combo.id = none →
      (processItem (fun _ => extract) now total batchStart fullBatch combo st).1.results
          = st.results ∧
      (processItem (fun _ => extract) now total batchStart fullBatch combo st).1.errors
          = st.errors + 1 ∧
      (processItem (fun _ => extract) now total batchStart fullBatch combo st).1.errorLog.length
          = st.errorLog.length + 1 := by
  obtain ⟨e1, he1⟩ := hfail 1
  obtain ⟨e2, he2⟩ := hfail 2
  obtain ⟨e3, he3⟩ := hfail 3
  have h3 : scrapeWithRetry extract combo now 3 =
      (Except.error e3, [Ev.fetchAttempt combo.id 3],
       [{ timestamp := now, combination := combo, message := e3 }]) := by
    rw [scrapeWithRetry.eq_def, he3]; simp [retryAttempts]
  have h2 : scrapeWithRetry extract combo now 2 =
      (Except.error e3, [Ev.fetchAttempt combo.id 2, Ev.fetchAttempt combo.id 3],
       [{ timestamp := now, combination := combo, message := e3 }]) := by
    rw [scrapeWithRetry.eq_def, he2]; simp [retryAttempts, h3]
  have h1 : scrapeWithRetry extract combo now 1 =
      (Except.error e3,
       [Ev.fetchAttempt combo.id 1, Ev.fetchAttempt combo.id 2, Ev.fetchAttempt combo.id 3],
       [{ timestamp := now, combination := combo, message := e3 }]) := by
    rw [scrapeWithRetry.eq_def, he1]; simp [retryAttempts, h2]
  refine ⟨by rw [h1]; rfl, by rw [h1]; rfl, ⟨e3, by rw [h1]⟩, ?_⟩
  intro total batchStart fullBatch st hmiss
  simp [processItem, hmiss, h1]

/-- Witness for C5 at a concrete always-failing extractor and a fresh
run state. -/
theorem scrapeWithRetry_retry_bound_witness :
    (([] : List (String × String)).lookup
        (mkCombination ⟨18, 22, true, 0, 0, true, 0⟩).id = none) ∧
    (scrapeWithRetry (α := String) (fun _ => Except.error "boom")
        (mkCombination ⟨18, 22, true, 0, 0, true, 0⟩) 0 1).2.1.length = retryAttempts ∧
    (processItem (α := String) (fun _ _ => Except.error "boom") 0 1 0
        [mkCombination ⟨18, 22, true, 0, 0, true, 0⟩]
        (mkCombination ⟨18, 22, true, 0, 0, true, 0⟩)
        { results := [], errorLog := [], processed := 0, successes := 0,
          errors := 0, startTime := none }).1.errors = 1 := by
  have h := scrapeWithRetry_retry_bound (α := String) (fun _ => Except.error "boom")
    (mkCombination ⟨18, 22, true, 0, 0, true, 0⟩) 0 (fun _ => ⟨"boom", rfl⟩)
  refine ⟨rfl, h.1, ?_⟩
  have h4 := (h.2.2.2 1 0 [mkCombination ⟨18, 22, true, 0, 0, true, 0⟩]
    { results := [], errorLog := [], processed := 0, successes := 0,
      errors := 0, startTime := none } rfl).2.1
  simpa using h4

/-! ### Trace observers and batch-driver lemmas (claims C3, C4) -/

/-- Recognizes an extractor attempt in the trace. -/
def isFetchEv : Ev → Bool
  | .fetchAttempt _ _ => true
  | _ => false

/-- Recognizes a progress-checkpoint save in the trace. -/
def isSaveEv : Ev → Bool
  | .savedProgress _ => true
  | _ => false

/-- Recognizes an already-cached skip in the trace. -/
def isSkipEv : Ev → Bool
  | .skip _ => true
  | _ => false

/-- The `currentIndex` a checkpoint-save event persisted. -/
def savedIdx : Ev → Option Nat
  | .savedProgress p => some p.currentIndex
  | _ => none

/-- The combination id an item's first trace event names: a skip, or
the first extractor attempt (attempt number 1). -/
def touchId : Ev → Option String
  | .skip i => some i
  | .fetchAttempt i 1 => some i
  | _ => none

/-- Every batch whose items are all cached is traversed without state
change beyond the two counters, emitting only skip events. -/
theorem processBatch_all_cached {α : Type} (extract : String → Nat → Except String α)
    (now total batchStart : Nat) (fullBatch : List Combination) :
    ∀ (batch : List Combination) (st : RunState α),
      (∀ c ∈ batch, (st.results.lookup c.id).isSome = true) →
      (processBatch extract now total batchStart fullBatch batch st).1 =
        { st with processed := st.processed + batch.length,
                  successes := st.successes + batch.length } ∧
      (processBatch extract now total batchStart fullBatch batch st).2 =
        batch.map (fun c => Ev.skip c.id) := by
  intro batch
  induction batch with
  | nil => intro st _; exact ⟨by simp [processBatch], by simp [processBatch]⟩
  | cons c rest ih =>
    intro st h
    have hc := h c (List.mem_cons_self _ _)
    have hitem : processItem extract now total batchStart fullBatch c st =
        ({ st with processed := st.processed + 1, successes := st.successes + 1 },
         [Ev.skip c.id]) := by
      simp [processItem, hc]
    have hrest := ih { st with processed := st.processed + 1, successes := st.successes + 1 }
      (fun c' hc' => h c' (List.mem_cons_of_mem _ hc'))
    refine ⟨?_, ?_⟩
    · simp only [processBatch, hitem, hrest.1]
      congr 1 <;> (simp only [List.length_cons]; omega)
    · simp only [processBatch, hitem, hrest.1, hrest.2, List.map_cons]
      rfl

/-- A run whose remaining suffix is entirely cached changes nothing but
the counters and emits only skip events. -/
theorem runBatches_all_cached {α : Type} (extract : String → Nat → Except String α) (now : Nat)
    (combos : List Combination) : ∀ (i : Nat) (st : RunState α),
    (∀ c ∈ combos.drop i, (st.results.lookup c.id).isSome = true) →
    (runBatches extract now combos st i).1 =
      { st with processed := st.processed + (combos.drop i).length,
                successes := st.successes + (combos.drop i).length } ∧
    (runBatches extract now combos st i).2 =
      (combos.drop i).map (fun c => Ev.skip c.id) := by
  intro i st hall
  by_cases h : i < combos.length
  · have hbatch : ∀ c ∈ (combos.drop i).take batchSize,
        (st.results.lookup c.id).isSome = true :=
      fun c hc => hall c (List.take_subset _ _ hc)
    have hpb := processBatch_all_cached extract now combos.length i
      ((combos.drop i).take batchSize) ((combos.drop i).take batchSize) st hbatch
    have htail : ∀ c ∈ combos.drop (i + batchSize),
        ((({ st with
             processed := st.processed + ((combos.drop i).take batchSize).length,
             successes := st.successes + ((combos.drop i).take batchSize).length }
            : RunState α).results).lookup c.id).isSome = true := by
      intro c hc
      have : c ∈ combos.drop i := by
        have hdd : combos.drop (i + batchSize) = (combos.drop i).drop batchSize := by
          rw [List.drop_drop]
        rw [hdd] at hc
        exact List.drop_subset _ _ hc
      exact hall c this
    have hrec := runBatches_all_cached extract now combos (i + batchSize)
      { st with
        processed := st.processed + ((combos.drop i).take batchSize).length,
        successes := st.successes + ((combos.drop i).take batchSize).length } htail
    rw [runBatches.eq_def]
    rw [dif_pos h]
    refine ⟨?_, ?_⟩
    · simp only [hpb.1, hrec.1]
      congr 1 <;>
      · simp only [List.length_take, List.length_drop]
        omega
    · simp only [hpb.1, hpb.2, hrec.2]
      rw [← List.map_append]
      congr 1
      rw [← List.drop_drop batchSize i, List.take_append_drop]
  · have hnil : combos.drop i = [] := List.drop_eq_nil_of_le (by omega)
    rw [runBatches.eq_def]
    rw [dif_neg h]
    simp [hnil]
termination_by i => combos.length - i
decreasing_by simp [batchSize]; omega

/-! ### Claim C4 -/

/-- C4: a combination whose id is already in the results store is
counted as processed and successful without any extractor attempt, and
a run over an entirely cached suffix performs no fetch at all and
leaves the results store unchanged. -/
theorem cached_combinations_not_refetched {α : Type} (extract : String → Nat → Except String α)
    (now : Nat) (combos : List Combination) (i : Nat) (st : RunState α)
    (hall : ∀ c ∈ combos.drop i, (st.results.lookup c.id).isSome = true) :
    (runBatches extract now combos st i).1.results = st.results ∧
    (runBatches extract now combos st i).1.processed = st.processed + (combos.drop i).length ∧
    (runBatches extract now combos st i).1.successes = st.successes + (combos.drop i).length ∧
    (runBatches extract now combos st i).2.countP isFetchEv = 0 ∧
    ∀ (total batchStart : Nat) (fullBatch : List Combination) (c : Combination),
      (st.results.lookup c.id).isSome = true →
      processItem extract now total batchStart fullBatch c st =
        ({ st with processed := st.processed + 1, successes := st.successes + 1 },
         [Ev.skip c.id]) := by
  have h := runBatches_all_cached extract now combos i st hall
  refine ⟨by rw [h.1], by rw [h.1], by rw [h.1], ?_, ?_⟩
  · rw [h.2]
    refine List.countP_eq_zero.mpr ?_
    intro ev hev
    obtain ⟨c, -, rfl⟩ := List.mem_map.mp hev
    simp [isFetchEv]
  · intro total batchStart fullBatch c hc
    simp [processItem, hc]

/-- Witness for C4 at a concrete one-element space whose only
combination is already cached. -/
theorem cached_combinations_not_refetched_witness :
    (∀ c ∈ ([mkCombination ⟨18, 22, true, 0, 0, true, 0⟩].drop 0),
      ((([(generateCombinationId ⟨18, 22, true, 0, 0, true, 0⟩, "p")]
          : List (String × String)).lookup c.id).isSome = true)) ∧
    (runBatches (α := String) (fun _ _ => Except.error "boom") 0
        [mkCombination ⟨18, 22, true, 0, 0, true, 0⟩]
        { results := [(generateCombinationId ⟨18, 22, true, 0, 0, true, 0⟩, "p")],
          errorLog := [], processed := 0, successes := 0, errors := 0, startTime := none }
        0).1.results = [(generateCombinationId ⟨18, 22, true, 0, 0, true, 0⟩, "p")] ∧
    (runBatches (α := String) (fun _ _ => Except.error "boom") 0
        [mkCombination ⟨18, 22, true, 0, 0, true, 0⟩]
        { results := [(generateCombinationId ⟨18, 22, true, 0, 0, true, 0⟩, "p")],
          errorLog := [], processed := 0, successes := 0, errors := 0, startTime := none }
        0).2.countP isFetchEv = 0 := by
  have h := cached_combinations_not_refetched (α := String) (fun _ _ => Except.error "boom") 0
    [mkCombination ⟨18, 22, true, 0, 0, true, 0⟩]
    0
    { results := [(generateCombinationId ⟨18, 22, true, 0, 0, true, 0⟩, "p")],
      errorLog := [], processed := 0, successes := 0, errors := 0, startTime := none }
    (by decide)
  exact ⟨by decide, h.1, h.2.2.2.1⟩

/-! ### Claim C3 -/

/-- Every event `scrapeWithRetry` emits is an extractor attempt on the
combination's own id, the first one carrying the starting attempt
number. -/
theorem scrapeWithRetry_events {α : Type} (extract : Nat → Except String α)
    (combo : Combination) (now : Nat) : ∀ (attempt : Nat),
    ∃ rest, (scrapeWithRetry extract combo now attempt).2.1 =
        Ev.fetchAttempt combo.id attempt :: rest ∧
      ∀ ev ∈ rest, ∃ j, attempt < j ∧ ev = Ev.fetchAttempt combo.id j := by
  intro attempt
  rw [scrapeWithRetry.eq_def]
  cases hx : extract attempt with
  | ok v => exact ⟨[], by simp, by simp⟩
  | error e =>
    by_cases hlt : attempt < retryAttempts
    · obtain ⟨rest, hr, hall⟩ := scrapeWithRetry_events extract combo now (attempt + 1)
      refine ⟨(scrapeWithRetry extract combo now (attempt + 1)).2.1, by simp [hlt], ?_⟩
      intro ev hev
      rw [hr] at hev
      rcases List.mem_cons.mp hev with h | h
      · exact ⟨attempt + 1, by omega, h⟩
      · obtain ⟨j, hj, he⟩ := hall ev h
        exact ⟨j, by omega, he⟩
    · exact ⟨[], by simp [hlt], by simp⟩
termination_by attempt => retryAttempts + 1 - attempt
decreasing_by omega

/-- Trace observers over a retry sequence: no checkpoint saves, no
skips, and exactly one first-attempt touch of the combination's id. -/
theorem scrapeWithRetry_trace_obs {α : Type} (extract : Nat → Except String α)
    (combo : Combination) (now : Nat) :
    (scrapeWithRetry extract combo now 1).2.1.filterMap savedIdx = [] ∧
    (scrapeWithRetry extract combo now 1).2.1.countP isSaveEv = 0 ∧
    (scrapeWithRetry extract combo now 1).2.1.countP isSkipEv = 0 ∧
    (scrapeWithRetry extract combo now 1).2.1.filterMap touchId = [combo.id] := by
  obtain ⟨rest, hr, hall⟩ := scrapeWithRetry_events extract combo now 1
  have hobs : ∀ ev ∈ rest, savedIdx ev = none ∧ isSaveEv ev = false ∧
      isSkipEv ev = false ∧ touchId ev = none := by
    intro ev hev
    obtain ⟨j, hj, rfl⟩ := hall ev hev
    obtain ⟨k, rfl⟩ : ∃ k, j = k + 2 := ⟨j - 2, by omega⟩
    exact ⟨rfl, rfl, rfl, rfl⟩
  rw [hr]
  refine ⟨?_, ?_, ?_, ?_⟩
  · rw [List.filterMap_cons_none rfl]
    exact List.filterMap_eq_nil_iff.mpr fun ev hev => (hobs ev hev).1
  · rw [List.countP_cons_of_neg _ _ (by simp [isSaveEv])]
    exact List.countP_eq_zero.mpr fun ev hev => by simp [(hobs ev hev).2.1]
  · rw [List.countP_cons_of_neg _ _ (by simp [isSkipEv])]
    exact List.countP_eq_zero.mpr fun ev hev => by simp [(hobs ev hev).2.2.1]
  · have h1 : touchId (Ev.fetchAttempt combo.id 1) = some combo.id := rfl
    have h2 : rest.filterMap touchId = [] :=
      List.filterMap_eq_nil_iff.mpr fun ev hev => (hobs ev hev).2.2.2
    simp only [List.filterMap_cons, h1, h2]

/-- What one item contributes to the trace and the counters: `processed`
always advances by one; a checkpoint is persisted (with `currentIndex`
derived from the item's batch position) exactly when the item was not
already cached; each item is touched exactly once. -/
theorem processItem_trace {α : Type} (extract : String → Nat → Except String α)
    (now total batchStart : Nat) (fullBatch : List Combination) (c : Combination)
    (st : RunState α) :
    (processItem extract now total batchStart fullBatch c st).1.processed
        = st.processed + 1 ∧
    (processItem extract now total batchStart fullBatch c st).2.filterMap savedIdx =
      (if (st.results.lookup c.id).isSome then []
       else [batchStart + fullBatch.indexOf c + 1]) ∧
    (processItem extract now total batchStart fullBatch c st).2.countP isSaveEv +
      (processItem extract now total batchStart fullBatch c st).2.countP isSkipEv = 1 ∧
    (processItem extract now total batchStart fullBatch c st).2.filterMap touchId = [c.id] := by
  obtain ⟨hs1, hs2, hs3, hs4⟩ := scrapeWithRetry_trace_obs (extract c.id) c now
  cases hl : st.results.lookup c.id with
  | some v =>
    refine ⟨?_, ?_, ?_, ?_⟩ <;>
      simp [processItem, hl, savedIdx, isSaveEv, isSkipEv, touchId]
  | none =>
    cases hfr : (scrapeWithRetry (extract c.id) c now 1).1 with
    | ok v =>
      refine ⟨?_, ?_, ?_, ?_⟩ <;>
        simp [processItem, hl, hfr, hs1, hs2, hs3, hs4, savedIdx, isSaveEv, isSkipEv, touchId]
    | error e =>
      refine ⟨?_, ?_, ?_, ?_⟩ <;>
        simp [processItem, hl, hfr, hs1, hs2, hs3, hs4, savedIdx, isSaveEv, isSkipEv, touchId]

/-- In a list, the element `indexOf` finds after a prefix it does not
occur in sits at the prefix's length. -/
theorem indexOf_append_cons {l₁ : List Combination} {c : Combination} (h : c ∉ l₁)
    (l₂ : List Combination) : (l₁ ++ c :: l₂).indexOf c = l₁.length := by
  induction l₁ with
  | nil => simp
  | cons a t ih =>
    have hne : a ≠ c := fun he => h (he ▸ List.mem_cons_self a t)
    have hnt : c ∉ t := fun ht => h (List.mem_cons_of_mem a ht)
    simp only [List.cons_append, List.length_cons]
    rw [List.indexOf_cons_ne _ hne, ih hnt]

/-- Under `Nodup`, the head of the `p`-th drop sits at index `p`. -/
theorem indexOf_of_drop_eq_cons {l : List Combination} (hnd : l.Nodup) {p : Nat}
    {c : Combination} {rest : List Combination} (hd : l.drop p = c :: rest) :
    l.indexOf c = p ∧ p < l.length := by
  have hplen : p < l.length := by
    by_contra hge
    rw [List.drop_eq_nil_of_le (by omega)] at hd
    exact List.noConfusion hd
  have hsplit : l.take p ++ c :: rest = l := by
    rw [← hd]; exact List.take_append_drop p l
  have hnotmem : c ∉ l.take p := by
    have : (l.take p ++ c :: rest).Nodup := hsplit.symm ▸ hnd
    have hdisj := List.disjoint_of_nodup_append this
    exact fun hmem => hdisj hmem (List.mem_cons_self c rest)
  have := indexOf_append_cons hnotmem rest
  rw [hsplit] at this
  refine ⟨?_, hplen⟩
  rw [this, List.length_take]
  omega

/-- Trace of one batch, processed from position `p` of the (Nodup) full
batch slice: `processed` counts every remaining item; checkpoint saves
carry strictly increasing `currentIndex` values confined to the batch's
index window; saves and skips together count the items; every item is
touched once, in order. -/
theorem processBatch_trace {α : Type} (extract : String → Nat → Except String α)
    (now total batchStart : Nat) (fullBatch : List Combination) (hnd : fullBatch.Nodup) :
    ∀ (p : Nat) (st : RunState α),
    (processBatch extract now total batchStart fullBatch (fullBatch.drop p) st).1.processed
        = st.processed + (fullBatch.drop p).length ∧
    ((processBatch extract now total batchStart fullBatch
        (fullBatch.drop p) st).2.filterMap savedIdx).Pairwise (· < ·) ∧
    (∀ x ∈ (processBatch extract now total batchStart fullBatch
        (fullBatch.drop p) st).2.filterMap savedIdx,
      batchStart + p < x ∧ x ≤ batchStart + fullBatch.length) ∧
    (processBatch extract now total batchStart fullBatch
        (fullBatch.drop p) st).2.countP isSaveEv +
      (processBatch extract now total batchStart fullBatch
        (fullBatch.drop p) st).2.countP isSkipEv = (fullBatch.drop p).length ∧
    (processBatch extract now total batchStart fullBatch
        (fullBatch.drop p) st).2.filterMap touchId
      = (fullBatch.drop p).map (fun c => c.id) := by
  intro p st
  cases hd : fullBatch.drop p with
  | nil =>
    simp [processBatch]
  | cons c rest =>
    have hrest : fullBatch.drop (p + 1) = rest := by
      have : (fullBatch.drop p).drop 1 = fullBatch.drop (p + 1) := by
        rw [List.drop_drop]
      rw [← this, hd, List.drop_one, List.tail_cons]
    obtain ⟨hidx, hplen⟩ := indexOf_of_drop_eq_cons hnd hd
    obtain ⟨hi1, hi2, hi3, hi4⟩ :=
      processItem_trace extract now total batchStart fullBatch c st
    have ihrec := processBatch_trace extract now total batchStart fullBatch hnd (p + 1)
      (processItem extract now total batchStart fullBatch c st).1
    rw [hrest] at ihrec
    obtain ⟨ih1, ih2, ih3, ih4, ih5⟩ := ihrec
    have hunf : processBatch extract now total batchStart fullBatch (c :: rest) st =
        ((processBatch extract now total batchStart fullBatch rest
            (processItem extract now total batchStart fullBatch c st).1).1,
         (processItem extract now total batchStart fullBatch c st).2 ++
           (processBatch extract now total batchStart fullBatch rest
             (processItem extract now total batchStart fullBatch c st).1).2) := rfl
    rw [hunf]
    rw [hidx] at hi2
    refine ⟨?_, ?_, ?_, ?_, ?_⟩
    · simp only [ih1, hi1, List.length_cons]
      omega
    · rw [List.filterMap_append, List.pairwise_append]
      refine ⟨?_, ih2, ?_⟩
      · rw [hi2]
        split <;> simp
      · intro a ha b hb
        have hb' := (ih3 b hb).1
        rw [hi2] at ha
        have : a = batchStart + p + 1 := by
          by_cases hcache : (st.results.lookup c.id).isSome
          · rw [if_pos hcache] at ha; exact absurd ha (List.not_mem_nil a)
          · rw [if_neg hcache] at ha; simpa using ha
        omega
    · rw [List.filterMap_append]
      intro x hx
      rcases List.mem_append.mp hx with hx1 | hx2
      · rw [hi2] at hx1
        have : x = batchStart + p + 1 := by
          by_cases hcache : (st.results.lookup c.id).isSome
          · rw [if_pos hcache] at hx1; exact absurd hx1 (List.not_mem_nil x)
          · rw [if_neg hcache] at hx1; simpa using hx1
        constructor <;> omega
      · have := ih3 x hx2
        constructor <;> omega
    · rw [List.countP_append, List.countP_append]
      simp only [List.length_cons]
      omega
    · rw [List.filterMap_append, hi4, ih5, List.map_cons]
      rfl

/-- Full trace analysis of the batch loop over any (Nodup) combination
list: `processed` advances per item, checkpoint saves carry strictly
increasing `currentIndex` values in `(i, length]`, saves + skips count
the items, and the loop touches exactly the suffix from `i` on. -/
theorem runBatches_trace {α : Type} (extract : String → Nat → Except String α)
    (now : Nat) (combos : List Combination) (hnd : combos.Nodup) :
    ∀ (i : Nat) (st : RunState α),
    (runBatches extract now combos st i).1.processed
        = st.processed + (combos.drop i).length ∧
    ((runBatches extract now combos st i).2.filterMap savedIdx).Pairwise (· < ·) ∧
    (∀ x ∈ (runBatches extract now combos st i).2.filterMap savedIdx,
      i < x ∧ x ≤ combos.length) ∧
    (runBatches extract now combos st i).2.countP isSaveEv +
      (runBatches extract now combos st i).2.countP isSkipEv = (combos.drop i).length ∧
    (runBatches extract now combos st i).2.filterMap touchId
      = (combos.drop i).map (fun c => c.id) := by
  intro i st
  by_cases h : i < combos.length
  · have hbnd : ((combos.drop i).take batchSize).Nodup :=
      hnd.sublist ((List.take_sublist _ _).trans (List.drop_sublist _ _))
    have hpb := processBatch_trace extract now combos.length i
      ((combos.drop i).take batchSize) hbnd 0 st
    rw [List.drop_zero] at hpb
    obtain ⟨hp1, hp2, hp3, hp4, hp5⟩ := hpb
    have hrec := runBatches_trace extract now combos hnd (i + batchSize)
      (processBatch extract now combos.length i ((combos.drop i).take batchSize)
        ((combos.drop i).take batchSize) st).1
    obtain ⟨hr1, hr2, hr3, hr4, hr5⟩ := hrec
    have hlen : ((combos.drop i).take batchSize).length + (combos.drop (i + batchSize)).length
        = (combos.drop i).length := by
      simp only [List.length_take, List.length_drop]
      omega
    have hunf : runBatches extract now combos st i =
        ((runBatches extract now combos
            (processBatch extract now combos.length i ((combos.drop i).take batchSize)
              ((combos.drop i).take batchSize) st).1 (i + batchSize)).1,
         (processBatch extract now combos.length i ((combos.drop i).take batchSize)
            ((combos.drop i).take batchSize) st).2 ++
           (runBatches extract now combos
             (processBatch extract now combos.length i ((combos.drop i).take batchSize)
               ((combos.drop i).take batchSize) st).1 (i + batchSize)).2) := by
      rw [runBatches.eq_def]
      rw [dif_pos h]
    rw [hunf]
    have hbatchlen : ((combos.drop i).take batchSize).length ≤ batchSize := by
      simp only [List.length_take]
      omega
    have hdl : (combos.drop i).length = combos.length - i := by
      simp [List.length_drop]
    have hdl2 : (combos.drop (i + batchSize)).length = combos.length - (i + batchSize) := by
      simp [List.length_drop]
    have htl : ((combos.drop i).take batchSize).length
        = min batchSize (combos.drop i).length := by
      simp [List.length_take]
    refine ⟨?_, ?_, ?_, ?_, ?_⟩
    · simp only [hr1, hp1]
      omega
    · rw [List.filterMap_append, List.pairwise_append]
      refine ⟨hp2, hr2, ?_⟩
      intro a ha b hb
      have ha2 := (hp3 a ha).2
      have hb1 := (hr3 b hb).1
      omega
    · rw [List.filterMap_append]
      intro x hx
      rcases List.mem_append.mp hx with hx1 | hx2
      · have := hp3 x hx1
        constructor <;> omega
      · have := hr3 x hx2
        constructor <;> omega
    · rw [List.countP_append, List.countP_append]
      omega
    · rw [List.filterMap_append, hp5, hr5, ← List.map_append]
      congr 1
      rw [← List.drop_drop batchSize i, List.take_append_drop]
  · have hnil : combos.drop i = [] := List.drop_eq_nil_of_le (by omega)
    have hunf : runBatches extract now combos st i = (st, []) := by
      rw [runBatches.eq_def]
      rw [dif_neg h]
    rw [hunf, hnil]
    simp
termination_by i => combos.length - i
decreasing_by simp [batchSize]; omega

/-- The single combination used in the C3 counterexample run. -/
def skipCexComb : Combination := mkCombination ⟨18, 25, true, 1, 150, true, 0⟩

/-- The C3 counterexample's starting state: the lone combination is
already cached. -/
def skipCexState : RunState String :=
  { results := [(skipCexComb.id, "p")], errorLog := [], processed := 0,
    successes := 0, errors := 0, startTime := none }

/-- C3 counterexample: a run whose item is skipped as already cached
advances `processed` to 1 but persists no progress checkpoint at all —
the skip branch `continue`s before `saveProgress`, so checkpoints are
not written after every processed item as the claim states. -/
theorem checkpoint_not_saved_for_skips_cex :
    (runBatches (α := String) (fun _ _ => Except.error "e") 0 [skipCexComb]
        skipCexState 0).1.processed = 1 ∧
    (runBatches (α := String) (fun _ _ => Except.error "e") 0 [skipCexComb]
        skipCexState 0).2.countP isSaveEv = 0 := by
  have h := runBatches_all_cached (α := String) (fun _ _ => Except.error "e") 0
    [skipCexComb] 0 skipCexState (by decide)
  exact ⟨by rw [h.1]; decide, by rw [h.2]; decide⟩

/-! ### Claim C6 — the enumerated combination space -/

/-- Membership in a guarded branch that is empty when the guard
holds. -/
theorem mem_ite_nil {α : Type} {p : Prop} [Decidable p] {l : List α} {x : α} :
    (x ∈ if p then ([] : List α) else l) ↔ ¬p ∧ x ∈ l := by
  by_cases h : p
  · simp [h]
  · simp [h]

/-- Length of the innermost (`minIncome`) loop. -/
theorem innerIncome_length (a b : Nat) (m : Bool) (r h : Nat) (o : Bool) :
    (innerIncome a b m r h o).length = 9 := by
  simp [innerIncome, minIncomeRange]

/-- Length after the `excludeObese` loop. -/
theorem innerObese_length (a b : Nat) (m : Bool) (r h : Nat) :
    (innerObese a b m r h).length = 18 := by
  simp [innerObese, List.length_flatMap, Function.comp_def, innerIncome_length,
    excludeMarriedRange, excludeObeseRange]

/-- Length after the `minHeight` loop. -/
theorem innerHeight_length (a b : Nat) (m : Bool) (r : Nat) :
    (innerHeight a b m r).length = 180 := by
  simp [innerHeight, List.length_flatMap, Function.comp_def, innerObese_length, minHeightRange]

/-- Length after the `race` loop. -/
theorem innerRace_length (a b : Nat) (m : Bool) : (innerRace a b m).length = 720 := by
  simp [innerRace, List.length_flatMap, Function.comp_def, innerHeight_length, raceRange]

/-- Length after the `excludeMarried` loop: the full inner block for
one valid age pair. -/
theorem innerMarried_length (a b : Nat) : (innerMarried a b).length = 1440 := by
  simp [innerMarried, List.length_flatMap, Function.comp_def, innerRace_length,
    excludeMarriedRange]

/-- Total size of the enumerated space. -/
theorem generateAllCombinations_length : generateAllCombinations.length = 145440 := by
  have hb : ∀ a b : Nat,
      (if a ≥ b then ([] : List Combination) else innerMarried a b).length
        = if a ≥ b then 0 else 1440 := by
    intro a b
    split
    · rfl
    · exact innerMarried_length a b
  simp only [generateAllCombinations, List.length_flatMap, Function.comp_def, hb]
  decide

/-- Membership characterization of the innermost loop. -/
theorem mem_innerIncome {a b r h : Nat} {m o : Bool} {c : Combination} :
    c ∈ innerIncome a b m r h o ↔
      ∃ inc ∈ minIncomeRange, mkCombination ⟨a, b, m, r, h, o, inc⟩ = c := by
  simp [innerIncome]

/-- Membership characterization after the `excludeObese` loop. -/
theorem mem_innerObese {a b r h : Nat} {m : Bool} {c : Combination} :
    c ∈ innerObese a b m r h ↔
      ∃ o ∈ excludeObeseRange, ∃ inc ∈ minIncomeRange,
        mkCombination ⟨a, b, m, r, h, o, inc⟩ = c := by
  simp [innerObese, List.mem_flatMap, mem_innerIncome]

/-- Membership characterization after the `minHeight` loop. -/
theorem mem_innerHeight {a b r : Nat} {m : Bool} {c : Combination} :
    c ∈ innerHeight a b m r ↔
      ∃ h ∈ minHeightRange, ∃ o ∈ excludeObeseRange, ∃ inc ∈ minIncomeRange,
        mkCombination ⟨a, b, m, r, h, o, inc⟩ = c := by
  simp [innerHeight, List.mem_flatMap, mem_innerObese]

/-- Membership characterization after the `race` loop. -/
theorem mem_innerRace {a b : Nat} {m : Bool} {c : Combination} :
    c ∈ innerRace a b m ↔
      ∃ r ∈ raceRange, ∃ h ∈ minHeightRange, ∃ o ∈ excludeObeseRange,
        ∃ inc ∈ minIncomeRange, mkCombination ⟨a, b, m, r, h, o, inc⟩ = c := by
  simp [innerRace, List.mem_flatMap, mem_innerHeight]

/-- Membership characterization after the `excludeMarried` loop. -/
theorem mem_innerMarried {a b : Nat} {c : Combination} :
    c ∈ innerMarried a b ↔
      ∃ m ∈ excludeMarriedRange, ∃ r ∈ raceRange, ∃ h ∈ minHeightRange,
        ∃ o ∈ excludeObeseRange, ∃ inc ∈ minIncomeRange,
          mkCombination ⟨a, b, m, r, h, o, inc⟩ = c := by
  simp [innerMarried, List.mem_flatMap, mem_innerRace]

/-- Membership characterization of the whole enumerated space: exactly
the grid tuples with `minAge < maxAge`. -/
theorem mem_generateAllCombinations {c : Combination} :
    c ∈ generateAllCombinations ↔
      ∃ a ∈ minAgeRange, ∃ b ∈ maxAgeRange, a < b ∧
        ∃ m ∈ excludeMarriedRange, ∃ r ∈ raceRange, ∃ h ∈ minHeightRange,
          ∃ o ∈ excludeObeseRange, ∃ inc ∈ minIncomeRange,
            mkCombination ⟨a, b, m, r, h, o, inc⟩ = c := by
  simp only [generateAllCombinations, List.mem_flatMap, mem_ite_nil, not_le, mem_innerMarried]

/-- A flatMap over a Nodup list is Nodup when every inner list is Nodup
and a projection recovers the outer element from each inner one. -/
theorem nodup_flatMap_proj {α β : Type} {l : List α} {f : α → List β} (g : β → α)
    (hl : l.Nodup) (hf : ∀ a ∈ l, (f a).Nodup)
    (hg : ∀ a ∈ l, ∀ b ∈ f a, g b = a) : (l.flatMap f).Nodup := by
  refine List.nodup_flatMap.mpr ⟨hf, ?_⟩
  refine hl.imp_of_mem ?_
  intro a b ha hb hne x hx1 hx2
  exact hne ((hg a ha x hx1).symm.trans (hg b hb x hx2))

/-- The innermost loop produces distinct combinations. -/
theorem nodup_innerIncome (a b : Nat) (m : Bool) (r h : Nat) (o : Bool) :
    (innerIncome a b m r h o).Nodup := by
  refine List.Nodup.map_on ?_ (by decide)
  intro x _ y _ hxy
  have := congrArg (fun c => c.params.minIncome) hxy
  simpa [mkCombination] using this

/-- Distinctness after the `excludeObese` loop. -/
theorem nodup_innerObese (a b : Nat) (m : Bool) (r h : Nat) : (innerObese a b m r h).Nodup := by
  refine nodup_flatMap_proj (fun c => c.params.excludeObese) (by decide)
    (fun o _ => nodup_innerIncome a b m r h o) ?_
  intro o _ c hc
  obtain ⟨inc, -, rfl⟩ := mem_innerIncome.mp hc
  rfl

/-- Distinctness after the `minHeight` loop. -/
theorem nodup_innerHeight (a b : Nat) (m : Bool) (r : Nat) : (innerHeight a b m r).Nodup := by
  refine nodup_flatMap_proj (fun c => c.params.minHeight) (by decide)
    (fun h _ => nodup_innerObese a b m r h) ?_
  intro h _ c hc
  obtain ⟨o, -, inc, -, rfl⟩ := mem_innerObese.mp hc
  rfl

/-- Distinctness after the `race` loop. -/
theorem nodup_innerRace (a b : Nat) (m : Bool) : (innerRace a b m).Nodup := by
  refine nodup_flatMap_proj (fun c => c.params.race) (by decide)
    (fun r _ => nodup_innerHeight a b m r) ?_
  intro r _ c hc
  obtain ⟨h, -, o, -, inc, -, rfl⟩ := mem_innerHeight.mp hc
  rfl

/-- Distinctness after the `excludeMarried` loop. -/
theorem nodup_innerMarried (a b : Nat) : (innerMarried a b).Nodup := by
  refine nodup_flatMap_proj (fun c => c.params.excludeMarried) (by decide)
    (fun m _ => nodup_innerRace a b m) ?_
  intro m _ c hc
  obtain ⟨r, -, h, -, o, -, inc, -, rfl⟩ := mem_innerRace.mp hc
  rfl

/-- The whole enumerated space contains no duplicate combination. -/
theorem nodup_generateAllCombinations : generateAllCombinations.Nodup := by
  refine nodup_flatMap_proj (fun c => c.params.minAge) (by decide) ?_ ?_
  · intro a _
    refine nodup_flatMap_proj (fun c => c.params.maxAge) (by decide) ?_ ?_
    · intro b _
      split
      · exact List.nodup_nil
      · exact nodup_innerMarried a b
    · intro b _ c hc
      rw [mem_ite_nil] at hc
      obtain ⟨m, -, r, -, h, -, o, -, inc, -, rfl⟩ := mem_innerMarried.mp hc.2
      rfl
  · intro a _ c hc
    rw [List.mem_flatMap] at hc
    obtain ⟨b, -, hc⟩ := hc
    rw [mem_ite_nil] at hc
    obtain ⟨m, -, r, -, h, -, o, -, inc, -, rfl⟩ := mem_innerMarried.mp hc.2
    rfl

/-- The parameter tuples of the enumerated space are distinct. -/
theorem nodup_params_generateAllCombinations :
    (generateAllCombinations.map (fun c => c.params)).Nodup := by
  refine List.Nodup.map_on ?_ nodup_generateAllCombinations
  intro c1 h1 c2 h2 heq
  obtain ⟨a1, -, b1, -, -, m1, -, r1, -, hh1, -, o1, -, i1, -, rfl⟩ :=
    mem_generateAllCombinations.mp h1
  obtain ⟨a2, -, b2, -, -, m2, -, r2, -, hh2, -, o2, -, i2, -, rfl⟩ :=
    mem_generateAllCombinations.mp h2
  simp only [mkCombination] at heq
  rw [show (⟨a1, b1, m1, r1, hh1, o1, i1⟩ : CombParams)
      = (⟨a2, b2, m2, r2, hh2, o2, i2⟩ : CombParams) from heq]

/-- C3 amended: over any (Nodup) combination list, a run resumed at
index `i` advances `processed` by one for every remaining item, but a
progress checkpoint is persisted only for the items that were not
skipped as already cached (saves + skips = items processed); the
persisted `currentIndex` values strictly increase and stay within
`(i, length]`; the run touches exactly the items from index `i` on, in
order — so a restart resumes exactly at the last persisted
`currentIndex`, while skipped-as-cached items persist no checkpoint of
their own.  In particular `startCaching`, which drives this loop over
the real enumerated space from the loaded checkpoint's `currentIndex`,
processes exactly the combinations from that index on. -/
theorem progress_checkpoint_policy {α : Type} (extract : String → Nat → Except String α)
    (now : Nat) (combos : List Combination) (hnd : combos.Nodup) :
    (∀ (i : Nat) (st : RunState α),
      (runBatches extract now combos st i).1.processed
          = st.processed + (combos.drop i).length ∧
      ((runBatches extract now combos st i).2.filterMap savedIdx).Pairwise (· < ·) ∧
      (∀ x ∈ (runBatches extract now combos st i).2.filterMap savedIdx,
        i < x ∧ x ≤ combos.length) ∧
      (runBatches extract now combos st i).2.countP isSaveEv +
        (runBatches extract now combos st i).2.countP isSkipEv = (combos.drop i).length ∧
      (runBatches extract now combos st i).2.filterMap touchId
        = (combos.drop i).map (fun c => c.id)) ∧
    ∀ (progress : Progress) (results0 : List (String × α)) (errors0 : List ErrorRecord),
      (startCaching extract now progress results0 errors0).1.processed
          = progress.processed
            + (generateAllCombinations.drop progress.currentIndex).length ∧
      (startCaching extract now progress results0 errors0).2.filterMap touchId
        = (generateAllCombinations.drop progress.currentIndex).map (fun c => c.id) := by
  refine ⟨runBatches_trace extract now combos hnd, ?_⟩
  intro progress results0 errors0
  have h := runBatches_trace extract now generateAllCombinations
    nodup_generateAllCombinations progress.currentIndex
    { results := results0, errorLog := errors0, processed := progress.processed,
      successes := progress.successes, errors := progress.errors,
      startTime := if progress.currentIndex = 0 then some now else progress.startTime }
  exact ⟨h.1, h.2.2.2.2⟩

/-- Witness for C3's amended run-trace theorem on a concrete two-item
space: one cached item (skipped, no checkpoint) and one fetched item
(one checkpoint). -/
theorem progress_checkpoint_policy_witness :
    ([skipCexComb, mkCombination ⟨20, 25, false, 2, 160, false, 0⟩] :
        List Combination).Nodup ∧
    ((runBatches (α := String) (fun _ _ => Except.error "e") 0
        [skipCexComb, mkCombination ⟨20, 25, false, 2, 160, false, 0⟩]
        skipCexState 0).2.filterMap savedIdx).Pairwise (· < ·) ∧
    (runBatches (α := String) (fun _ _ => Except.error "e") 0
        [skipCexComb, mkCombination ⟨20, 25, false, 2, 160, false, 0⟩]
        skipCexState 0).2.countP isSaveEv +
      (runBatches (α := String) (fun _ _ => Except.error "e") 0
        [skipCexComb, mkCombination ⟨20, 25, false, 2, 160, false, 0⟩]
        skipCexState 0).2.countP isSkipEv = 2 ∧
    (runBatches (α := String) (fun _ _ => Except.error "e") 0
        [skipCexComb, mkCombination ⟨20, 25, false, 2, 160, false, 0⟩]
        skipCexState 0).2.filterMap touchId
      = [skipCexComb.id, (mkCombination ⟨20, 25, false, 2, 160, false, 0⟩).id] := by
  have h := (progress_checkpoint_policy (α := String) (fun _ _ => Except.error "e") 0
    [skipCexComb, mkCombination ⟨20, 25, false, 2, 160, false, 0⟩] (by decide)).1
    0 skipCexState
  exact ⟨by decide, h.2.1, h.2.2.2.1, h.2.2.2.2⟩

/-- C6: the enumerated space contains no combination with
`minAge ≥ maxAge`; its size is 145440, which equals the number of valid
`(minAge, maxAge)` pairs times the product of the other five grid
sizes (101 × 2·4·10·2·9); and every valid grid tuple appears exactly
once. -/
theorem generate_space_correct :
    (∀ c ∈ generateAllCombinations, c.params.minAge < c.params.maxAge) ∧
    generateAllCombinations.length = 145440 ∧
    145440 = ((minAgeRange.product maxAgeRange).filter
        (fun q => decide (q.1 < q.2))).length *
      (excludeMarriedRange.length * raceRange.length * minHeightRange.length *
        excludeObeseRange.length * minIncomeRange.length) ∧
    ∀ p : CombParams, p.minAge ∈ minAgeRange → p.maxAge ∈ maxAgeRange →
      p.excludeMarried ∈ excludeMarriedRange → p.race ∈ raceRange →
      p.minHeight ∈ minHeightRange → p.excludeObese ∈ excludeObeseRange →
      p.minIncome ∈ minIncomeRange → p.minAge < p.maxAge →
      (generateAllCombinations.map (fun c => c.params)).count p = 1 := by
  refine ⟨?_, generateAllCombinations_length, by decide, ?_⟩
  · intro c hc
    obtain ⟨a, -, b, -, hab, m, -, r, -, h, -, o, -, inc, -, rfl⟩ :=
      mem_generateAllCombinations.mp hc
    exact hab
  · intro p hp1 hp2 hp3 hp4 hp5 hp6 hp7 hp8
    refine List.count_eq_one_of_mem nodup_params_generateAllCombinations ?_
    refine List.mem_map.mpr ⟨mkCombination p, ?_, rfl⟩
    exact mem_generateAllCombinations.mpr
      ⟨p.minAge, hp1, p.maxAge, hp2, hp8, p.excludeMarried, hp3, p.race, hp4,
       p.minHeight, hp5, p.excludeObese, hp6, p.minIncome, hp7, rfl⟩

/-- Witness for C6 at the concrete valid tuple (18, 22, true, 0, 0,
true, 0): each grid membership holds, the age guard holds, and the
tuple occurs exactly once; the member built from it satisfies the age
invariant. -/
theorem generate_space_correct_witness :
    ((18 : Nat) ∈ minAgeRange ∧ (22 : Nat) ∈ maxAgeRange ∧ (18 : Nat) < 22) ∧
    (generateAllCombinations.map (fun c => c.params)).count ⟨18, 22, true, 0, 0, true, 0⟩ = 1 ∧
    (mkCombination ⟨18, 22, true, 0, 0, true, 0⟩).params.minAge
      < (mkCombination ⟨18, 22, true, 0, 0, true, 0⟩).params.maxAge := by
  refine ⟨by decide, ?_, ?_⟩
  · exact generate_space_correct.2.2.2 ⟨18, 22, true, 0, 0, true, 0⟩ (by decide) (by decide)
      (by decide) (by decide) (by decide) (by decide) (by decide) (by decide)
  · refine generate_space_correct.1 (mkCombination ⟨18, 22, true, 0, 0, true, 0⟩) ?_
    exact mem_generateAllCombinations.mpr
      ⟨18, by decide, 22, by decide, by decide, true, by decide, 0, by decide,
       0, by decide, true, by decide, 0, by decide, rfl⟩

/-! ### Claim C10 — injectivity of the combination id -/

/-- A dash-separated concatenation determines its first component when
neither candidate first component contains the separator. -/
theorem append_sep_inj : ∀ (l₁ l₂ r₁ r₂ : List Char), '-' ∉ l₁ → '-' ∉ l₂ →
    l₁ ++ '-' :: r₁ = l₂ ++ '-' :: r₂ → l₁ = l₂ ∧ r₁ = r₂ := by
  intro l₁
  induction l₁ with
  | nil =>
    intro l₂ r₁ r₂ _ h₂ h
    cases l₂ with
    | nil => simpa using h
    | cons x xs =>
      simp only [List.nil_append, List.cons_append, List.cons.injEq] at h
      exact absurd (h.1 ▸ List.mem_cons_self x xs) h₂
  | cons y ys ih =>
    intro l₂ r₁ r₂ h₁ h₂ h
    cases l₂ with
    | nil =>
      simp only [List.cons_append, List.nil_append, List.cons.injEq] at h
      exact absurd (h.1 ▸ List.mem_cons_self y ys) h₁
    | cons x xs =>
      simp only [List.cons_append, List.cons.injEq] at h
      obtain ⟨rfl, h'⟩ := h
      have h₁' : '-' ∉ ys := fun hm => h₁ (List.mem_cons_of_mem _ hm)
      have h₂' : '-' ∉ xs := fun hm => h₂ (List.mem_cons_of_mem _ hm)
      obtain ⟨he, hr⟩ := ih xs r₁ r₂ h₁' h₂' h'
      exact ⟨by rw [he], hr⟩

/-- Character data of the dash literal. -/
theorem dash_data : ("-" : String).data = ['-'] := rfl

/-- The id string decomposed at its six separators. -/
theorem generateCombinationId_data (p : CombParams) :
    (generateCombinationId p).data =
      (Nat.repr p.minAge).data ++ '-' :: ((Nat.repr p.maxAge).data ++ '-' ::
        ((boolToString p.excludeMarried).data ++ '-' :: ((Nat.repr p.race).data ++ '-' ::
          ((Nat.repr p.minHeight).data ++ '-' :: ((boolToString p.excludeObese).data ++ '-' ::
            (Nat.repr p.minIncome).data))))) := by
  simp [generateCombinationId, String.data_append, dash_data, List.append_assoc]

/-- No rendered field of a grid value contains the separator. -/
theorem grid_repr_no_dash :
    (∀ x ∈ minAgeRange, '-' ∉ (Nat.repr x).data) ∧
    (∀ x ∈ maxAgeRange, '-' ∉ (Nat.repr x).data) ∧
    (∀ x ∈ raceRange, '-' ∉ (Nat.repr x).data) ∧
    (∀ x ∈ minHeightRange, '-' ∉ (Nat.repr x).data) ∧
    (∀ x ∈ minIncomeRange, '-' ∉ (Nat.repr x).data) ∧
    (∀ m : Bool, '-' ∉ (boolToString m).data) := by
  decide

/-- Rendering is injective on each grid, and on booleans. -/
theorem grid_repr_inj :
    (∀ x ∈ minAgeRange, ∀ y ∈ minAgeRange, Nat.repr x = Nat.repr y → x = y) ∧
    (∀ x ∈ maxAgeRange, ∀ y ∈ maxAgeRange, Nat.repr x = Nat.repr y → x = y) ∧
    (∀ x ∈ raceRange, ∀ y ∈ raceRange, Nat.repr x = Nat.repr y → x = y) ∧
    (∀ x ∈ minHeightRange, ∀ y ∈ minHeightRange, Nat.repr x = Nat.repr y → x = y) ∧
    (∀ x ∈ minIncomeRange, ∀ y ∈ minIncomeRange, Nat.repr x = Nat.repr y → x = y) ∧
    (∀ m n : Bool, boolToString m = boolToString n → m = n) := by
  decide

/-- On the grid domain, `generateCombinationId` determines the
parameter tuple. -/
theorem generateCombinationId_inj {p q : CombParams}
    (hpa : p.minAge ∈ minAgeRange) (hpb : p.maxAge ∈ maxAgeRange)
    (hpr : p.race ∈ raceRange) (hph : p.minHeight ∈ minHeightRange)
    (hpi : p.minIncome ∈ minIncomeRange)
    (hqa : q.minAge ∈ minAgeRange) (hqb : q.maxAge ∈ maxAgeRange)
    (hqr : q.race ∈ raceRange) (hqh : q.minHeight ∈ minHeightRange)
    (hqi : q.minIncome ∈ minIncomeRange)
    (h : generateCombinationId p = generateCombinationId q) : p = q := by
  have hd := congrArg String.data h
  rw [generateCombinationId_data, generateCombinationId_data] at hd
  obtain ⟨e1, hd⟩ := append_sep_inj _ _ _ _
    (grid_repr_no_dash.1 _ hpa) (grid_repr_no_dash.1 _ hqa) hd
  obtain ⟨e2, hd⟩ := append_sep_inj _ _ _ _
    (grid_repr_no_dash.2.1 _ hpb) (grid_repr_no_dash.2.1 _ hqb) hd
  obtain ⟨e3, hd⟩ := append_sep_inj _ _ _ _
    (grid_repr_no_dash.2.2.2.2.2 p.excludeMarried)
    (grid_repr_no_dash.2.2.2.2.2 q.excludeMarried) hd
  obtain ⟨e4, hd⟩ := append_sep_inj _ _ _ _
    (grid_repr_no_dash.2.2.1 _ hpr) (grid_repr_no_dash.2.2.1 _ hqr) hd
  obtain ⟨e5, hd⟩ := append_sep_inj _ _ _ _
    (grid_repr_no_dash.2.2.2.1 _ hph) (grid_repr_no_dash.2.2.2.1 _ hqh) hd
  obtain ⟨e6, e7⟩ := append_sep_inj _ _ _ _
    (grid_repr_no_dash.2.2.2.2.2 p.excludeObese)
    (grid_repr_no_dash.2.2.2.2.2 q.excludeObese) hd
  have f1 := grid_repr_inj.1 _ hpa _ hqa (String.ext e1)
  have f2 := grid_repr_inj.2.1 _ hpb _ hqb (String.ext e2)
  have f3 := grid_repr_inj.2.2.2.2.2 _ _ (String.ext e3)
  have f4 := grid_repr_inj.2.2.1 _ hpr _ hqr (String.ext e4)
  have f5 := grid_repr_inj.2.2.2.1 _ hph _ hqh (String.ext e5)
  have f6 := grid_repr_inj.2.2.2.2.2 _ _ (String.ext e6)
  have f7 := grid_repr_inj.2.2.2.2.1 _ hpi _ hqi (String.ext e7)
  obtain ⟨pa, pb, pm, pr, ph, po, pi⟩ := p
  obtain ⟨qa, qb, qm, qr, qh, qo, qi⟩ := q
  simp only at f1 f2 f3 f4 f5 f6 f7
  subst f1; subst f2; subst f3; subst f4; subst f5; subst f6; subst f7
  rfl

/-- C10: two enumerated combinations with different parameter tuples
always have different id strings, so distinct tuples never share a
results-store key. -/
theorem combination_ids_injective :
    ∀ c₁ ∈ generateAllCombinations, ∀ c₂ ∈ generateAllCombinations,
      c₁.params ≠ c₂.params → c₁.id ≠ c₂.id := by
  intro c₁ h₁ c₂ h₂ hne hid
  obtain ⟨a1, ha1, b1, hb1, -, m1, -, r1, hr1, hh1, hm1, o1, -, i1, hi1, rfl⟩ :=
    mem_generateAllCombinations.mp h₁
  obtain ⟨a2, ha2, b2, hb2, -, m2, -, r2, hr2, hh2, hm2, o2, -, i2, hi2, rfl⟩ :=
    mem_generateAllCombinations.mp h₂
  exact hne (generateCombinationId_inj ha1 hb1 hr1 hm1 hi1 ha2 hb2 hr2 hm2 hi2 hid)

/-- Witness for C10 at two concrete enumerated combinations that differ
only in `minIncome`: their ids differ. -/
theorem combination_ids_injective_witness :
    mkCombination ⟨18, 22, true, 0, 0, true, 0⟩ ∈ generateAllCombinations ∧
    mkCombination ⟨18, 22, true, 0, 0, true, 30000⟩ ∈ generateAllCombinations ∧
    (mkCombination ⟨18, 22, true, 0, 0, true, 0⟩).params
      ≠ (mkCombination ⟨18, 22, true, 0, 0, true, 30000⟩).params ∧
    (mkCombination ⟨18, 22, true, 0, 0, true, 0⟩).id
      ≠ (mkCombination ⟨18, 22, true, 0, 0, true, 30000⟩).id := by
  have hm1 : mkCombination ⟨18, 22, true, 0, 0, true, 0⟩ ∈ generateAllCombinations :=
    mem_generateAllCombinations.mpr
      ⟨18, by decide, 22, by decide, by decide, true, by decide, 0, by decide,
       0, by decide, true, by decide, 0, by decide, rfl⟩
  have hm2 : mkCombination ⟨18, 22, true, 0, 0, true, 30000⟩ ∈ generateAllCombinations :=
    mem_generateAllCombinations.mpr
      ⟨18, by decide, 22, by decide, by decide, true, by decide, 0, by decide,
       0, by decide, true, by decide, 30000, by decide, rfl⟩
  exact ⟨hm1, hm2, by decide,
    combination_ids_injective _ hm1 _ hm2 (by decide)⟩

end IGS


